import Mathlib

/-!
Shallow embedding of the pingo plugin harness (host-side supervisor in
plugin.go / errors.go / utils.go, child-side runtime in the rpc server file).
Go strings are modelled as lists of characters; Go string slicing that can
panic is modelled with Option (none = runtime panic); the supervisor's
select loop is modelled as a step function over an explicit state record,
with external nondeterminism (dial outcomes, child output, wait results)
carried by the events.
-/

namespace Pingo

/-- Go strings, modelled as lists of characters. -/
abbrev Str := List Char

/-- Go strings.HasPrefix: does s start with pre. -/
def strStarts : Str → Str → Bool
| _, [] => true
| [], _ :: _ => false
| c :: s, d :: t => c = d && strStarts s t

/-- Go strings.IndexByte: index of the first occurrence of c in s. -/
def indexByte : Str → Char → Option Nat
| [], _ => none
| c :: rest, t => if c = t then some 0 else (indexByte rest t).map (· + 1)

/-- First index at which sep occurs as a substring of s. -/
def indexOfSub (sep : Str) : Str → Option Nat
| [] => if sep = [] then some 0 else none
| c :: rest =>
  if strStarts (c :: rest) sep then some 0
  else (indexOfSub sep rest).map (· + 1)

/-- Go strings.SplitN(s, sep, 2) for a non-empty sep: split around the first
occurrence of sep; a single-element list if sep does not occur. -/
def splitN2 (s sep : Str) : List Str :=
  match indexOfSub sep s with
  | none => [s]
  | some i => [s.take i, s.drop (i + sep.length)]

/-- Go strings.Split(s, sep) for a non-empty sep (fueled; the fuel
s.length + 1 always suffices since each step consumes at least one char). -/
def splitAllGo (sep : Str) : Nat → Str → List Str
| 0, s => [s]
| fuel + 1, s =>
  match indexOfSub sep s with
  | none => [s]
  | some i => s.take i :: splitAllGo sep fuel (s.drop (i + sep.length))

/-- Go strings.Split(s, sep). -/
def splitAll (sep s : Str) : List Str :=
  splitAllGo sep (s.length + 1) s

/-- Go slice expression s[i:]; none models the runtime panic when i > len(s). -/
def goSliceFrom (s : Str) (i : Nat) : Option Str :=
  if i ≤ s.length then some (s.drop i) else none

/-! ## errors.go -/

/-- The error values the supervisor distinguishes (errors.go and the error
values produced in plugin.go). -/
inductive GoErr
| invalidMessage
| registrationTimeout
| connFailed (msg : Str)
| httpServe (msg : Str)
| generic (msg : Str)
| dialFailed (proto addr : Str)
| exitError (msg : Str)
deriving DecidableEq

/-- errors.go: errorCodeConnFailed. -/
def errorCodeConnFailed : Str := "err-connection-failed".toList

/-- errors.go: errorCodeHttpServe. -/
def errorCodeHttpServe : Str := "err-http-serve".toList

/-- The two-character separator between key and value. -/
def colonSpaceS : Str := [':', ' ']

/-- errors.go parseError. Outer none models the index-out-of-range panic on
parts[1]; some none models the Go nil return; some (some e) a non-nil error. -/
def parseError (line : Str) : Option (Option GoErr) :=
  let parts := splitN2 line colonSpaceS
  match parts.get? 0 with
  | none => none
  | some p0 =>
    if p0 = [] then some none
    else
      match parts.get? 1 with
      | none => none
      | some p1 =>
        some (some (
          if p0 = errorCodeConnFailed then GoErr.connFailed p1
          else if p0 = errorCodeHttpServe then GoErr.httpServe p1
          else GoErr.generic p1))

/-! ## utils.go -/

/-- utils.go _letters. -/
def lettersS : Str :=
  "abcdefghijklmnopqrstuvwxyzABCDEFGHIJKLMNOPQRSTUVWXYZ0123456789_-".toList

/-- utils.go randstr(n); r models the stream of rand.Intn draws. -/
def randstr (r : Nat → Nat) (n : Nat) : Str :=
  (List.range n).map (fun i => lettersS.getD (r i % lettersS.length) 'a')

/-- utils.go meta.parse. The receiver h is the line prefix. Returns the
(key, value) pair; ([], []) stands for the Go empty-string pair returned for
non-protocol lines; none models the two possible slice-bounds panics
(line[len(h)+2:] and line[end+2:]). -/
def metaParse (h line : Str) : Option (Str × Str) :=
  if line = [] then some ([], [])
  else if line.length < h.length then some ([], [])
  else if line.take h.length ≠ h then some ([], [])
  else
    match goSliceFrom line (h.length + 2) with
    | none => none
    | some rest =>
      match indexByte rest ':' with
      | none => some ([], [])
      | some e =>
        match goSliceFrom rest (e + 2) with
        | none => none
        | some v => some (rest.take e, v)

/-! ## plugin.go: ctrl helpers -/

/-- plugin.go: the built-in control object name. -/
def internalObject : Str := "PingoRpc".toList

/-- Literal pieces of the ready line grammar. -/
def protoEqS : Str := "proto=".toList

/-- The addr= marker inside the ready value. -/
def addrEqS : Str := "addr=".toList

/-- The space plus addr= marker, used to state decompositions of ready values. -/
def spAddrEqS : Str := " addr=".toList

/-- The unix protocol name. -/
def unixS : Str := "unix".toList

/-- The tcp protocol name. -/
def tcpS : Str := "tcp".toList

/-- plugin.go ctrl.parseReady. The source mutates c.proto and c.addr while
scanning, so the model threads the (proto, addr) pair through and returns the
updated pair together with success (true) or the invalid-message error
(false). All Go slicing in the source is guarded, so no panic case exists. -/
def parseReady (str0 : Str) (pa : Str × Str) : (Str × Str) × Bool :=
  if strStarts str0 protoEqS then
    match indexByte (str0.drop 6) ' ' with
    | none => (pa, false)
    | some i =>
      if (str0.drop 6).take i ≠ unixS ∧ (str0.drop 6).take i ≠ tcpS then (pa, false)
      else
        if strStarts (((str0.drop 6)).drop (i + 1)) addrEqS then
          (((str0.drop 6).take i, ((str0.drop 6).drop (i + 1)).drop 5), true)
        else (((str0.drop 6).take i, pa.2), false)
  else (pa, false)

/-- Go slice assignment list[j] = v; none models the index-out-of-range panic. -/
def goListSet (l : List Str) (j : Nat) (v : Str) : Option (List Str) :=
  if j < l.length then some (l.set j v) else none

/-- The loop body of plugin.go ctrl.objects: copy every entry other than
internalObject into consecutive slots of list starting at j. -/
def objLoop : List Str → List Str → Nat → Option (List Str)
| list, [], _ => some list
| list, o :: rest, j =>
  if o = internalObject then objLoop list rest j
  else
    match goListSet list j o with
    | none => none
    | some list1 => objLoop list1 rest (j + 1)

/-- plugin.go ctrl.objects. make([]string, len(c.objs)-1) panics when the
stored list is empty (negative length), modelled by the length-zero guard;
the copy loop can panic when it writes past the end. -/
def objectsFn (objs : List Str) : Option (List Str) :=
  if objs.length = 0 then none
  else objLoop (List.replicate (objs.length - 1) []) objs 0

/-- All occurrences of x removed from a list (specification-side helper used
to compare with what ctrl.objects builds). -/
def removeAll (x : Str) : List Str → List Str
| [] => []
| y :: r => if y = x then removeAll x r else y :: removeAll x r

/-- Number of occurrences of x in a list. -/
def countOcc (x : Str) : List Str → Nat
| [] => 0
| y :: r => (if y = x then 1 else 0) + countOcc x r

/-! ## Child runtime (rpc server source file) -/

/-- Child server: the Auth-Token header key. -/
def authTokenKey : Str := "Auth-Token".toList

/-- rpcServer.authConn: token must be non-empty and equal to the secret. -/
def authConn (secret token : Str) : Bool :=
  if token ≠ [] ∧ token = secret then true else false

/-- Lookup in the Go header map (zero value "" when the key is absent). The
map is represented as an association list with the most recent insertion
first, matching Go's overwrite-on-assign semantics. -/
def hmapGet (m : List (Str × Str)) (k : Str) : Str :=
  match m.find? (fun p => p.1 == k) with
  | some p => p.2
  | none => []

/-- parseHeaders: fold the scanned header lines into the map. Each line is
SplitN at ": "; an empty key is skipped; a line without the separator makes
parts[1] panic (none), exactly as in parseError. -/
def parseHeaderLines : List Str → List (Str × Str) → Option (List (Str × Str))
| [], m => some m
| l :: rest, m =>
  let parts := splitN2 l colonSpaceS
  match parts.get? 0 with
  | none => none
  | some p0 =>
    if p0 = [] then parseHeaderLines rest m
    else
      match parts.get? 1 with
      | none => none
      | some p1 => parseHeaderLines rest ((p0, p1) :: m)

/-- rpcServer.serveConn, reduced to its decision: given the scanned header
lines, some b says the header block parsed and the byte stream is handed to
rpc.Server.ServeConn exactly when b = true; none is the parse panic (no
dispatch happens). -/
def serveConnAuth (secret : Str) (lines : List Str) : Option Bool :=
  match parseHeaderLines lines [] with
  | none => none
  | some m => some (authConn secret (hmapGet m authTokenKey))

/-- The secret stored by newRpcServer: randstr(64). -/
def rpcServerSecret (r : Nat → Nat) : Str := randstr r 64

/-- The two transport binding strategies of the child (tcp carries the
mutable port counter, unix the directory string). -/
inductive ConnKind
| tcpC (t : Int)
| unixC (u : Str)
deriving DecidableEq

/-- connection.retries. -/
def connRetries : ConnKind → Nat
| ConnKind.tcpC _ => 500
| ConnKind.unixC _ => 4

/-- The loopback address string for a port. -/
def tcpAddrStr (t : Int) : Str := "127.0.0.1:".toList ++ (toString t).toList

/-- path.Join(dir, name) for a non-empty clean dir (FromSlash is the identity
on unix-style paths). -/
def pathJoin (dir name : Str) : Str := dir ++ '/' :: name

/-- connection.addr: tcp bumps the counter (starting it at 1024), unix draws
a fresh 8-character random name and joins it to the directory only when the
directory string is non-empty. r models the rand.Intn draws of this call. -/
def connAddr : ConnKind → (Nat → Nat) → ConnKind × Str
| ConnKind.tcpC t, _ =>
  let t1 : Int := if t < 1024 then 1023 else t
  let t2 := t1 + 1
  (ConnKind.tcpC t2, tcpAddrStr t2)
| ConnKind.unixC u, r =>
  let name := randstr r 8
  (ConnKind.unixC u, if u ≠ [] then pathJoin u name else name)

/-- rpcServer.run's switch over conf.proto: "tcp" gets a fresh tcp counter,
anything else is coerced to "unix" and gets new(unix) — the zero value, an
empty directory string; conf.unixdir is not consulted. Returns the possibly
rewritten proto together with the connection value. -/
def newConnFor (proto : Str) : Str × ConnKind :=
  if proto = tcpS then (proto, ConnKind.tcpC 0)
  else (unixS, ConnKind.unixC [])

/-- rpcServer.run's bind loop: up to fuel attempts, attempt i drawing
randomness r i; returns the list of attempted addresses and the first one
where listen succeeded, if any. -/
def bindLoop (listenOk : Str → Bool) (r : Nat → Nat → Nat) :
    ConnKind → Nat → Nat → List Str × Option Str
| _, _, 0 => ([], none)
| c, i, fuel + 1 =>
  let (c1, a) := connAddr c (r i)
  if listenOk a then ([a], some a)
  else
    let (tr, res) := bindLoop listenOk r c1 (i + 1) fuel
    (a :: tr, res)

/-- The child's configuration (argv flags). -/
structure SrvConfig where
  proto : Str
  unixdir : Str
  pfx : Str
deriving DecidableEq

/-- rpcServer.run up to the end of the bind loop: pick the connection
strategy from conf.proto and run the retry loop. -/
def runBind (conf : SrvConfig) (listenOk : Str → Bool) (r : Nat → Nat → Nat) :
    List Str × Option Str :=
  let pc := newConnFor conf.proto
  bindLoop listenOk r pc.2 0 (connRetries pc.2)

/-- The fatal line rpcServer.run emits when every listen attempt failed
(key "fatal", value beginning with the err-connection-failed code). -/
def bindFatalValue (c : ConnKind) (proto : Str) : Str :=
  errorCodeConnFailed ++ ": Could not connect in ".toList ++
    (toString (connRetries c)).toList ++ " attemps, using ".toList ++
    proto ++ " protocol".toList

/-! ## plugin.go: the supervisor event loop (Plugin.run)

The select loop is modelled as a step function. Channel nil-ness is modelled
by Boolean open flags (a nil channel never fires, so the corresponding event
is disabled); external nondeterminism (which event fires, the dial outcome,
the child's output and exit error) is carried by the event. The observations
record the effects the claims talk about: process kills, request completions,
handler output, the Exit RPC and the socket unlink. -/

/-- Fixed data of one supervisor run: the child's pid as obtained at spawn
(used by the force-kill deadline task) and the instance line prefix. -/
structure LoopCfg where
  pid0 : Nat
  pfx : Str
deriving DecidableEq

/-- The supervisor state: the fields of ctrl owned by the event loop, plus
the loop-local bookkeeping (pending deadline tasks, loop exited). -/
structure LoopState where
  objs : List Str
  proto : Str
  addr : Str
  secret : Str
  err : Option GoErr
  connOpen : Bool
  objsOpen : Bool
  timeoutArmed : Bool
  waitOpen : Bool
  linesOpen : Bool
  proc : Option Nat
  client : Option Nat
  over : Bool
  deadlines : Nat
  done : Bool
deriving DecidableEq

/-- Events the select loop can receive. line carries the dial outcome used
if the line turns out to be a valid ready message; waitDone carries the
error returned by cmd.Wait (none for a clean exit). -/
inductive Ev
| timeout
| connReq
| objsReq
| line (l : Str) (dialOk : Bool)
| killReq
| waitDone (werr : Option GoErr)
| exitConfirm
| deadlineFire
deriving DecidableEq

/-- Observable effects of one loop iteration. -/
inductive Obs
| killProc (pid : Nat)
| killPid (pid : Nat)
| connErr (e : GoErr)
| connOk (c : Option Nat)
| objsErr (e : GoErr)
| objsOk (l : List Str)
| printLine (l : Str)
| printErr (e : GoErr)
| exitCall
| overDone
| removeSock (a : Str)
deriving DecidableEq

/-- ctrl.kill: a no-op when the stored pointer is nil, otherwise Kill the
process and nil the pointer. -/
def killApply (s : LoopState) : LoopState × List Obs :=
  match s.proc with
  | some pid => ({ s with proc := none }, [Obs.killProc pid])
  | none => (s, [])

/-- ctrl.fatal: store the error (unconditionally), open the request
channels, kill the child. -/
def fatalApply (e : GoErr) (s : LoopState) : LoopState × List Obs :=
  killApply { s with err := some e, connOpen := true, objsOpen := true }

/-- Is the wait error an exec.ExitError (child exited nonzero / was killed)? -/
def isExitErr : GoErr → Bool
| GoErr.exitError _ => true
| _ => false

/-- Recognised protocol keys. -/
def keyAuthToken : Str := "auth-token".toList

/-- The fatal key. -/
def keyFatal : Str := "fatal".toList

/-- The error key. -/
def keyError : Str := "error".toList

/-- The objects key. -/
def keyObjects : Str := "objects".toList

/-- The ready key. -/
def keyReady : Str := "ready".toList

/-- The separator of the objects list. -/
def commaSpaceS : Str := ", ".toList

/-- Dispatch on the parsed key of a child output line (the switch inside the
linesCh case of Plugin.run). none propagates a panic of parseError. The ready
key runs ctrl.ready: strict parse (on failure fatal, which itself opens the
channels), then the authenticated dial with outcome dialOk; on success the
socket is removed for unix, the registration timeout defused and the request
channels opened. -/
def lineDispatch (dialOk : Bool) (l : Str) (s : LoopState) (k v : Str) :
    Option (LoopState × List Obs) :=
  if k = keyAuthToken then some ({ s with secret := v }, [])
    else if k = keyFatal then
      match parseError v with
      | none => none
      | some (some e) => some (fatalApply e s)
      | some none => some (fatalApply (GoErr.generic v) s)
    else if k = keyError then
      match parseError v with
      | none => none
      | some (some e) => some (s, [Obs.printErr e])
      | some none => some (s, [Obs.printErr (GoErr.generic v)])
    else if k = keyObjects then some ({ s with objs := splitAll commaSpaceS v }, [])
    else if k = keyReady then
      match parseReady v (s.proto, s.addr) with
      | (pa, false) => some (fatalApply GoErr.invalidMessage { s with proto := pa.1, addr := pa.2 })
      | (pa, true) =>
        if dialOk then
          some ({ s with proto := pa.1, addr := pa.2, client := some 1,
                         timeoutArmed := false, connOpen := true, objsOpen := true },
                if pa.1 = unixS then [Obs.removeSock pa.2] else [])
        else some (fatalApply (GoErr.dialFailed pa.1 pa.2)
                     { s with proto := pa.1, addr := pa.2 })
    else some (s, [Obs.printLine l])

/-- The linesCh case of Plugin.run: parse with meta.parse (a panic of the
parse aborts the iteration) and dispatch on the key. -/
def lineApply (cfg : LoopCfg) (dialOk : Bool) (l : Str) (s : LoopState) :
    Option (LoopState × List Obs) :=
  (metaParse cfg.pfx l).bind (fun kv => lineDispatch dialOk l s kv.1 kv.2)

/-- One iteration of the select loop of Plugin.run. none means the event
cannot fire in this state (nil channel, loop already returned) or the
iteration panics (meta.parse / parseError / ctrl.objects). -/
def step (cfg : LoopCfg) (s : LoopState) : Ev → Option (LoopState × List Obs)
| Ev.timeout =>
  if s.done then none
  else if s.timeoutArmed then
    some (fatalApply GoErr.registrationTimeout { s with timeoutArmed := false })
  else none
| Ev.connReq =>
  if s.done then none
  else if s.connOpen then
    match s.err with
    | some e => some (s, [Obs.connErr e])
    | none => some (s, [Obs.connOk s.client])
  else none
| Ev.objsReq =>
  if s.done then none
  else if s.objsOpen then
    match s.err with
    | some e => some (s, [Obs.objsErr e])
    | none =>
      match objectsFn s.objs with
      | none => none
      | some l => some (s, [Obs.objsOk l])
  else none
| Ev.line l dialOk =>
  if s.done then none
  else if s.linesOpen then lineApply cfg dialOk l s
  else none
| Ev.killReq =>
  if s.done then none
  else if s.waitOpen then
    let so :=
      if ¬ s.connOpen ∨ s.client = none then killApply s
      else ({ s with deadlines := s.deadlines + 1 }, [Obs.exitCall])
    some ({ so.1 with connOpen := false, objsOpen := false, over := true }, so.2)
  else some (s, [])
| Ev.waitDone werr =>
  if s.done then none
  else if s.waitOpen then
    let so :=
      match werr with
      | some e =>
        let pre : List Obs := if isExitErr e then [] else [Obs.printErr e]
        let fo := fatalApply e s
        (fo.1, pre ++ fo.2)
      | none => (s, [])
    let o3 : List Obs := if so.1.over then [Obs.overDone] else []
    some ({ so.1 with proc := none, waitOpen := false, linesOpen := false },
          so.2 ++ o3)
  else none
| Ev.exitConfirm => if s.done then none else some ({ s with done := true }, [])
| Ev.deadlineFire =>
  if s.done then none
  else
    match s.deadlines with
    | 0 => none
    | n + 1 => some ({ s with deadlines := n }, [Obs.killPid cfg.pid0])

/-- The state right after Plugin.run spawned the child (pid received and
os.FindProcess succeeded) and entered the select loop. -/
def initState (pid : Nat) : LoopState :=
  { objs := [], proto := [], addr := [], secret := [], err := none,
    connOpen := false, objsOpen := false, timeoutArmed := true,
    waitOpen := true, linesOpen := true, proc := some pid, client := none,
    over := false, deadlines := 0, done := false }

/-- Run a sequence of events through the loop, accumulating observations. -/
def runTrace (cfg : LoopCfg) : LoopState → List Ev → Option (LoopState × List Obs)
| s, [] => some (s, [])
| s, e :: evs =>
  (step cfg s e).bind (fun so1 =>
    (runTrace cfg so1.1 evs).map (fun so2 => (so2.1, so1.2 ++ so2.2)))

/-- Number of Kill calls issued through the stored process pointer
(ctrl.kill). -/
def countProcKills : List Obs → Nat
| [] => 0
| Obs.killProc _ :: r => countProcKills r + 1
| _ :: r => countProcKills r

/-- Number of Kill calls issued on the child process by any path (ctrl.kill
and the deadline task's pid lookup). -/
def countKills : List Obs → Nat
| [] => 0
| Obs.killProc _ :: r => countKills r + 1
| Obs.killPid _ :: r => countKills r + 1
| _ :: r => countKills r

/-- 1 while the stored process pointer is non-nil, else 0. -/
def procTok (s : LoopState) : Nat :=
  match s.proc with
  | some _ => 1
  | none => 0

/-! ## Concrete data for counterexamples and witnesses -/

/-- A concrete supervisor configuration: pid 7, a 10-character line prefix
of the shape produced by NewPlugin. -/
def cfg0 : LoopCfg := { pid0 := 7, pfx := "pingo00000".toList }

/-- A child output line carrying a structured fatal error. -/
def fatalLineEv : Ev := Ev.line "pingo00000: fatal: err-http-serve: boom".toList false

/-- The child-wait completion after the child was killed: cmd.Wait returns
an exec.ExitError. -/
def killedWaitEv : Ev := Ev.waitDone (some (GoErr.exitError "signal: killed".toList))

/-- A valid ready line over tcp, with a successful dial. -/
def readyLineEv : Ev := Ev.line "pingo00000: ready: proto=tcp addr=127.0.0.1:1024".toList true

/-- An objects line in which the child names the built-in object twice. -/
def objectsDupEv : Ev :=
  Ev.line "pingo00000: objects: PingoRpc, PingoRpc".toList false

/-- A supervisor state with a latched fatal error (the state reached right
after the fatal line of fatalLineEv was processed from initState 7). -/
def fatalState : LoopState :=
  { initState 7 with
    err := some (GoErr.httpServe "boom".toList)
    connOpen := true
    objsOpen := true
    proc := none }

/-! ## Helper lemmas: strings -/

theorem strStarts_iff_take (pre : Str) : ∀ s : Str,
    strStarts s pre = true ↔ s.take pre.length = pre := by
  induction pre with
  | nil => intro s; simp [strStarts]
  | cons d t ih =>
    intro s
    cases s with
    | nil => simp [strStarts]
    | cons c s' =>
      simp only [strStarts, List.length_cons, List.take_succ_cons,
        Bool.and_eq_true, decide_eq_true_eq, List.cons.injEq]
      constructor
      · rintro ⟨h1, h2⟩; exact ⟨h1, (ih s').mp h2⟩
      · rintro ⟨h1, h2⟩; exact ⟨h1, (ih s').mpr h2⟩

theorem strStarts_append (pre s : Str) : strStarts (pre ++ s) pre = true := by
  rw [strStarts_iff_take, List.take_left]

theorem strStarts_decomp {s pre : Str} (h : strStarts s pre = true) :
    s = pre ++ s.drop pre.length := by
  have ht := (strStarts_iff_take pre s).mp h
  conv_lhs => rw [← List.take_append_drop pre.length s]
  rw [ht]

theorem indexByte_decomp {c : Char} : ∀ {s : Str} {i : Nat},
    indexByte s c = some i → s = s.take i ++ c :: s.drop (i + 1) := by
  intro s
  induction s with
  | nil => intro i h; simp [indexByte] at h
  | cons d rest ih =>
    intro i h
    simp only [indexByte] at h
    by_cases hd : d = c
    · simp [hd] at h
      subst h; subst hd
      simp
    · simp [hd] at h
      obtain ⟨j, hj, hji⟩ := h
      subst hji
      have := ih hj
      simp only [List.take_succ_cons, List.drop_succ_cons]
      conv_lhs => rw [this]
      simp

theorem indexByte_append_cons {c : Char} : ∀ (l r : Str), c ∉ l →
    indexByte (l ++ c :: r) c = some l.length := by
  intro l
  induction l with
  | nil => intro r _; simp [indexByte]
  | cons d t ih =>
    intro r hmem
    have hd : ¬ d = c := by
      intro h; exact hmem (by simp [h])
    have ht : c ∉ t := by
      intro h; exact hmem (by simp [h])
    simp [indexByte, hd, ih r ht]

/-! ## Helper lemmas: parseReady (claim C3) -/

theorem parseReady_build (p a : Str) (pa : Str × Str)
    (hp : p = unixS ∨ p = tcpS) :
    parseReady (protoEqS ++ p ++ spAddrEqS ++ a) pa = ((p, a), true) := by
  have hsp : spAddrEqS = ' ' :: addrEqS := by decide
  have hv : protoEqS ++ p ++ spAddrEqS ++ a =
      protoEqS ++ (p ++ ' ' :: (addrEqS ++ a)) := by
    rw [hsp]; simp
  rw [hv]
  have hstart : strStarts (protoEqS ++ (p ++ ' ' :: (addrEqS ++ a))) protoEqS = true :=
    strStarts_append _ _
  have hlen6 : protoEqS.length = 6 := by decide
  have hdrop : (protoEqS ++ (p ++ ' ' :: (addrEqS ++ a))).drop 6 =
      p ++ ' ' :: (addrEqS ++ a) := by
    rw [← hlen6, List.drop_left]
  have hnotmem : ' ' ∉ p := by
    rcases hp with h | h <;> (subst h; decide)
  have hidx : indexByte (p ++ ' ' :: (addrEqS ++ a)) ' ' = some p.length :=
    indexByte_append_cons p (addrEqS ++ a) hnotmem
  have htake : (p ++ ' ' :: (addrEqS ++ a)).take p.length = p := List.take_left _ _
  have hguard : ¬ (p ≠ unixS ∧ p ≠ tcpS) := by
    rcases hp with h | h <;> simp [h]
  have hdrop2 : (p ++ ' ' :: (addrEqS ++ a)).drop (p.length + 1) = addrEqS ++ a := by
    have : p ++ ' ' :: (addrEqS ++ a) = (p ++ [' ']) ++ (addrEqS ++ a) := by simp
    rw [this]
    have hl : (p ++ [' ']).length = p.length + 1 := by simp
    rw [← hl, List.drop_left]
  have hstart2 : strStarts (addrEqS ++ a) addrEqS = true := strStarts_append _ _
  have hdrop3 : (addrEqS ++ a).drop 5 = a := by
    have : addrEqS.length = 5 := by decide
    rw [← this, List.drop_left]
  simp [parseReady, hstart, hdrop, hidx, htake, hguard, hdrop2, hstart2, hdrop3]

theorem parseReady_inv {v : Str} {pa : Str × Str}
    (h : (parseReady v pa).2 = true) :
    ∃ p a, (p = unixS ∨ p = tcpS) ∧ v = protoEqS ++ p ++ spAddrEqS ++ a ∧
      (parseReady v pa).1 = (p, a) := by
  have hmain : ∃ p a, (p = unixS ∨ p = tcpS) ∧
      v = protoEqS ++ p ++ spAddrEqS ++ a := by
    by_cases hstart : strStarts v protoEqS = true
    · rcases hidx : indexByte (v.drop 6) ' ' with _ | i
      · simp [parseReady, hstart, hidx] at h
      · by_cases hguard : (v.drop 6).take i ≠ unixS ∧ (v.drop 6).take i ≠ tcpS
        · simp [parseReady, hstart, hidx, hguard] at h
        · have hdd : (v.drop 6).drop (i + 1) = v.drop (6 + (i + 1)) :=
            List.drop_drop (i + 1) 6 v
          by_cases hstart2 : strStarts (v.drop (6 + (i + 1))) addrEqS = true
          · refine ⟨(v.drop 6).take i, ((v.drop 6).drop (i + 1)).drop 5, ?_, ?_⟩
            · rcases Decidable.em ((v.drop 6).take i = unixS) with he | he
              · exact Or.inl he
              · right
                by_contra ht
                exact hguard ⟨he, ht⟩
            · have hd1 : v = protoEqS ++ v.drop 6 := by
                have h0 := strStarts_decomp hstart
                have h6 : protoEqS.length = 6 := by decide
                rwa [h6] at h0
              have hd2 : v.drop 6 =
                  (v.drop 6).take i ++ ' ' :: (v.drop 6).drop (i + 1) :=
                indexByte_decomp hidx
              have hd3 : (v.drop 6).drop (i + 1) =
                  addrEqS ++ ((v.drop 6).drop (i + 1)).drop 5 := by
                rw [hdd] at *
                have h0 := strStarts_decomp hstart2
                have h5 : addrEqS.length = 5 := by decide
                rwa [h5] at h0
              have hsp : spAddrEqS = ' ' :: addrEqS := by decide
              conv_lhs => rw [hd1]
              conv_lhs => rw [hd2]
              conv_lhs => rw [hd3]
              rw [hsp]
              simp
          · simp [parseReady, hstart, hidx, hguard, hstart2] at h
    · simp [parseReady, hstart] at h
  obtain ⟨p, a, hp, hv⟩ := hmain
  refine ⟨p, a, hp, hv, ?_⟩
  rw [hv, parseReady_build p a pa hp]

/-! ## Helper lemmas: meta.parse (claims C4, C9) -/

theorem metaParse_key_ne_nil {h line k v : Str}
    (hp : metaParse h line = some (k, v)) (hk : k ≠ []) :
    strStarts line h = true := by
  unfold metaParse at hp
  by_cases h0 : line = []
  · simp [h0] at hp
    exact absurd hp.1 hk
  · rw [if_neg h0] at hp
    by_cases h1 : line.length < h.length
    · simp [h1] at hp
      exact absurd hp.1 hk
    · rw [if_neg h1] at hp
      by_cases h2 : line.take h.length ≠ h
      · simp [h2] at hp
        exact absurd hp.1 hk
      · rw [strStarts_iff_take]
        exact Decidable.not_not.mp h2

theorem metaParse_not_pre {h line : Str} (hs : strStarts line h = false) :
    metaParse h line = some ([], []) := by
  unfold metaParse
  by_cases h0 : line = []
  · rw [if_pos h0]
  · rw [if_neg h0]
    by_cases h1 : line.length < h.length
    · rw [if_pos h1]
    · rw [if_neg h1]
      have h2 : line.take h.length ≠ h := by
        intro he
        have := (strStarts_iff_take h line).mpr he
        rw [hs] at this
        exact Bool.false_ne_true this
      rw [if_pos h2]

/-! ## Helper lemmas: ctrl.objects (claims C5, C10) -/

theorem countOcc_le_length (x : Str) : ∀ l : List Str, countOcc x l ≤ l.length := by
  intro l
  induction l with
  | nil => simp [countOcc]
  | cons y r ih =>
    simp only [countOcc, List.length_cons]
    by_cases hy : y = x <;> simp [hy] <;> omega

theorem length_removeAll (x : Str) : ∀ l : List Str,
    (removeAll x l).length = l.length - countOcc x l := by
  intro l
  induction l with
  | nil => simp [removeAll, countOcc]
  | cons y r ih =>
    have hc := countOcc_le_length x r
    by_cases hy : y = x <;> simp [removeAll, countOcc, hy, ih] <;> omega

theorem not_mem_removeAll (x : Str) : ∀ l : List Str, x ∉ removeAll x l := by
  intro l
  induction l with
  | nil => simp [removeAll]
  | cons y r ih =>
    by_cases hy : y = x
    · simpa [removeAll, hy] using ih
    · simp [removeAll, hy]
      exact ⟨fun he => hy he.symm, ih⟩

theorem countOcc_eq_zero_iff (x : Str) : ∀ l : List Str,
    countOcc x l = 0 ↔ ∀ o ∈ l, o ≠ x := by
  intro l
  induction l with
  | nil => simp [countOcc]
  | cons y r ih =>
    by_cases hy : y = x <;> simp [countOcc, hy, ih]

theorem set_len_append (v s0 : Str) : ∀ (pre suf : List Str),
    (pre ++ s0 :: suf).set pre.length v = pre ++ v :: suf := by
  intro pre
  induction pre with
  | nil => intro suf; simp
  | cons p0 pr ih => intro suf; simp [List.set, ih]

theorem drop_replicate_self : ∀ (n : Nat), (List.replicate n ([] : Str)).drop n = [] := by
  intro n
  induction n with
  | zero => simp
  | succ m ih => simp [List.replicate, ih]

theorem objLoop_spec : ∀ (rest pre suf : List Str),
    (removeAll internalObject rest).length ≤ suf.length →
    objLoop (pre ++ suf) rest pre.length =
      some (pre ++ removeAll internalObject rest ++
        suf.drop (removeAll internalObject rest).length) := by
  intro rest
  induction rest with
  | nil => intro pre suf _; simp [objLoop, removeAll]
  | cons o rest ih =>
    intro pre suf hlen
    by_cases ho : o = internalObject
    · rw [show objLoop (pre ++ suf) (o :: rest) pre.length =
          objLoop (pre ++ suf) rest pre.length by simp [objLoop, ho]]
      rw [show removeAll internalObject (o :: rest) =
          removeAll internalObject rest by simp [removeAll, ho]] at *
      exact ih pre suf hlen
    · rw [show removeAll internalObject (o :: rest) =
          o :: removeAll internalObject rest by simp [removeAll, ho]] at *
      cases suf with
      | nil => simp at hlen
      | cons s0 suf' =>
        have hj : pre.length < (pre ++ s0 :: suf').length := by
          simp
        have hset : goListSet (pre ++ s0 :: suf') pre.length o =
            some (pre ++ o :: suf') := by
          simp only [goListSet, if_pos hj, set_len_append]
        rw [show objLoop (pre ++ s0 :: suf') (o :: rest) pre.length =
            objLoop (pre ++ o :: suf') rest (pre.length + 1) by
          simp [objLoop, ho, hset]]
        have hres := ih (pre ++ [o]) suf' (by simp at hlen ⊢; omega)
        rw [show (pre ++ [o]) ++ suf' = pre ++ o :: suf' by simp] at hres
        rw [show (pre ++ [o]).length = pre.length + 1 by simp] at hres
        rw [hres]
        simp

theorem objectsFn_count_one {objs : List Str}
    (hc : countOcc internalObject objs = 1) :
    objectsFn objs = some (removeAll internalObject objs) := by
  have hne : objs.length ≠ 0 := by
    intro h0
    rw [List.length_eq_zero.mp h0] at hc
    simp [countOcc] at hc
  have hlen : (removeAll internalObject objs).length = objs.length - 1 := by
    rw [length_removeAll, hc]
  unfold objectsFn
  rw [if_neg hne]
  have h0 := objLoop_spec objs [] (List.replicate (objs.length - 1) [])
    (by rw [hlen, List.length_replicate])
  simp only [List.nil_append, List.length_nil] at h0
  rw [h0, hlen, drop_replicate_self]
  simp

theorem objLoop_overflow : ∀ (rest : List Str), (∀ o ∈ rest, o ≠ internalObject) →
    ∀ (list : List Str) (j : Nat), j ≤ list.length → list.length < j + rest.length →
    objLoop list rest j = none := by
  intro rest
  induction rest with
  | nil =>
    intro _ list j hj hlt
    simp at hlt
    omega
  | cons o rest ih =>
    intro hmem list j hj hlt
    have ho : o ≠ internalObject := hmem o (by simp)
    by_cases hjl : j < list.length
    · have hset : goListSet list j o = some (list.set j o) := by
        simp [goListSet, hjl]
      rw [show objLoop list (o :: rest) j = objLoop (list.set j o) rest (j + 1) by
        simp [objLoop, ho, hset]]
      exact ih (fun x hx => hmem x (by simp [hx])) (list.set j o) (j + 1)
        (by rw [List.length_set]; omega) (by rw [List.length_set]; simp at hlt; omega)
    · have hset : goListSet list j o = none := by
        simp [goListSet, hjl]
      simp [objLoop, ho, hset]

theorem objectsFn_count_zero {objs : List Str}
    (hc : countOcc internalObject objs = 0) :
    objectsFn objs = none := by
  unfold objectsFn
  by_cases hne : objs.length = 0
  · rw [if_pos hne]
  · rw [if_neg hne]
    exact objLoop_overflow objs ((countOcc_eq_zero_iff _ _).mp hc)
      (List.replicate (objs.length - 1) []) 0 (by simp)
      (by rw [List.length_replicate]; omega)

/-! ## Helper lemmas: the event loop (claims C1, C6) -/

theorem countProcKills_append : ∀ (a b : List Obs),
    countProcKills (a ++ b) = countProcKills a + countProcKills b := by
  intro a b
  induction a with
  | nil => simp [countProcKills]
  | cons o r ih =>
    cases o <;> (simp [countProcKills, ih]; try omega)

theorem killApply_spec (s : LoopState) :
    countProcKills (killApply s).2 + procTok (killApply s).1 = procTok s ∧
    (killApply s).1.err = s.err := by
  rcases hp : s.proc with _ | pid <;>
    simp [killApply, hp, countProcKills, procTok]

theorem fatalApply_spec (e : GoErr) (s : LoopState) :
    countProcKills (fatalApply e s).2 + procTok (fatalApply e s).1 = procTok s ∧
    (fatalApply e s).1.err = some e := by
  unfold fatalApply
  rcases killApply_spec { s with err := some e, connOpen := true, objsOpen := true }
    with ⟨hb, he⟩
  refine ⟨?_, by rw [he]⟩
  rw [hb]
  simp [procTok]

theorem lineDispatch_spec {d : Bool} {l : Str} {s : LoopState} {k v : Str}
    {so : LoopState × List Obs} (h : lineDispatch d l s k v = some so) :
    countProcKills so.2 + procTok so.1 ≤ procTok s ∧
    (s.err.isSome = true → so.1.err.isSome = true) := by
  unfold lineDispatch at h
  by_cases h1 : k = keyAuthToken
  · rw [if_pos h1] at h
    obtain rfl := Option.some.inj h
    simp [countProcKills, procTok]
  · rw [if_neg h1] at h
    by_cases h2 : k = keyFatal
    · rw [if_pos h2] at h
      split at h
      · exact absurd h (by simp)
      · rename_i e heq
        obtain rfl := Option.some.inj h
        rcases fatalApply_spec e s with ⟨hb, he⟩
        exact ⟨by omega, fun _ => by simp [he]⟩
      · obtain rfl := Option.some.inj h
        rcases fatalApply_spec (GoErr.generic v) s with ⟨hb, he⟩
        exact ⟨by omega, fun _ => by simp [he]⟩
    · rw [if_neg h2] at h
      by_cases h3 : k = keyError
      · rw [if_pos h3] at h
        split at h
        · exact absurd h (by simp)
        · obtain rfl := Option.some.inj h
          simp [countProcKills, procTok]
        · obtain rfl := Option.some.inj h
          simp [countProcKills, procTok]
      · rw [if_neg h3] at h
        by_cases h4 : k = keyObjects
        · rw [if_pos h4] at h
          obtain rfl := Option.some.inj h
          simp [countProcKills, procTok]
        · rw [if_neg h4] at h
          by_cases h5 : k = keyReady
          · rw [if_pos h5] at h
            split at h
            · rename_i pa heq
              obtain rfl := Option.some.inj h
              rcases fatalApply_spec GoErr.invalidMessage
                { s with proto := pa.1, addr := pa.2 } with ⟨hb, he⟩
              refine ⟨?_, fun _ => by simp [he]⟩
              rw [show procTok { s with proto := pa.1, addr := pa.2 } =
                procTok s from by simp [procTok]] at hb
              omega
            · rename_i pa heq
              by_cases hd : d = true
              · rw [if_pos hd] at h
                obtain rfl := Option.some.inj h
                constructor
                · by_cases hu : pa.1 = unixS <;>
                    simp [hu, countProcKills, procTok]
                · intro hse
                  simpa using hse
              · rw [if_neg hd] at h
                obtain rfl := Option.some.inj h
                rcases fatalApply_spec (GoErr.dialFailed pa.1 pa.2)
                  { s with proto := pa.1, addr := pa.2 } with ⟨hb, he⟩
                refine ⟨?_, fun _ => by simp [he]⟩
                rw [show procTok { s with proto := pa.1, addr := pa.2 } =
                  procTok s from by simp [procTok]] at hb
                omega
          · rw [if_neg h5] at h
            obtain rfl := Option.some.inj h
            simp [countProcKills, procTok]

theorem step_spec {cfg : LoopCfg} {s : LoopState} {e : Ev}
    {so : LoopState × List Obs} (h : step cfg s e = some so) :
    countProcKills so.2 + procTok so.1 ≤ procTok s ∧
    (s.err.isSome = true → so.1.err.isSome = true) := by
  cases e with
  | timeout =>
    simp only [step] at h
    by_cases h1 : s.done = true
    · rw [if_pos h1] at h
      exact absurd h (by simp)
    · rw [if_neg h1] at h
      by_cases h2 : s.timeoutArmed = true
      · rw [if_pos h2] at h
        obtain rfl := Option.some.inj h
        rcases fatalApply_spec GoErr.registrationTimeout
          { s with timeoutArmed := false } with ⟨hb, he⟩
        have hpt : procTok { s with timeoutArmed := false } = procTok s := by
          simp [procTok]
        rw [hpt] at hb
        exact ⟨by omega, fun _ => by simp [he]⟩
      · rw [if_neg h2] at h
        exact absurd h (by simp)
  | connReq =>
    simp only [step] at h
    by_cases h1 : s.done = true
    · rw [if_pos h1] at h
      exact absurd h (by simp)
    · rw [if_neg h1] at h
      by_cases h2 : s.connOpen = true
      · rw [if_pos h2] at h
        split at h <;>
          first
          | (obtain rfl := Option.some.inj h
             exact ⟨by simp [countProcKills], fun hse => hse⟩)
      · rw [if_neg h2] at h
        exact absurd h (by simp)
  | objsReq =>
    simp only [step] at h
    by_cases h1 : s.done = true
    · rw [if_pos h1] at h
      exact absurd h (by simp)
    · rw [if_neg h1] at h
      by_cases h2 : s.objsOpen = true
      · rw [if_pos h2] at h
        split at h
        · obtain rfl := Option.some.inj h
          exact ⟨by simp [countProcKills], fun hse => hse⟩
        · split at h
          · exact absurd h (by simp)
          · obtain rfl := Option.some.inj h
            exact ⟨by simp [countProcKills], fun hse => hse⟩
      · rw [if_neg h2] at h
        exact absurd h (by simp)
  | line l d =>
    simp only [step] at h
    by_cases h1 : s.done = true
    · rw [if_pos h1] at h
      exact absurd h (by simp)
    · rw [if_neg h1] at h
      by_cases h2 : s.linesOpen = true
      · rw [if_pos h2] at h
        unfold lineApply at h
        rcases hm : metaParse cfg.pfx l with _ | kv
        · rw [hm] at h
          exact absurd h (by simp)
        · rw [hm, Option.some_bind] at h
          exact lineDispatch_spec h
      · rw [if_neg h2] at h
        exact absurd h (by simp)
  | killReq =>
    simp only [step] at h
    by_cases h1 : s.done = true
    · rw [if_pos h1] at h
      exact absurd h (by simp)
    · rw [if_neg h1] at h
      by_cases h2 : s.waitOpen = true
      · rw [if_pos h2] at h
        by_cases hc : ¬ s.connOpen = true ∨ s.client = none
        · rw [if_pos hc] at h
          obtain rfl := Option.some.inj h
          rcases killApply_spec s with ⟨hb, he⟩
          constructor
          · simp only [procTok] at hb ⊢
            omega
          · intro hse
            simpa [he] using hse
        · rw [if_neg hc] at h
          obtain rfl := Option.some.inj h
          exact ⟨by simp [countProcKills, procTok], fun hse => by simpa using hse⟩
      · rw [if_neg h2] at h
        obtain rfl := Option.some.inj h
        exact ⟨by simp [countProcKills], fun hse => hse⟩
  | waitDone werr =>
    simp only [step] at h
    by_cases h1 : s.done = true
    · rw [if_pos h1] at h
      exact absurd h (by simp)
    · rw [if_neg h1] at h
      by_cases h2 : s.waitOpen = true
      · rw [if_pos h2] at h
        rcases werr with _ | e
        · obtain rfl := Option.some.inj h
          constructor
          · have h02 : countProcKills (if s.over = true then [Obs.overDone] else []) = 0 := by
              split <;> simp [countProcKills]
            simp only [List.nil_append, h02]
            simp [procTok]
          · intro hse
            simpa using hse
        · obtain rfl := Option.some.inj h
          rcases fatalApply_spec e s with ⟨hb, he⟩
          constructor
          · rw [countProcKills_append, countProcKills_append]
            have h01 : countProcKills (if isExitErr e = true then [] else [Obs.printErr e]) = 0 := by
              split <;> simp [countProcKills]
            have h02 : countProcKills (if (fatalApply e s).1.over = true then [Obs.overDone] else []) = 0 := by
              split <;> simp [countProcKills]
            rw [h01, h02]
            have hpt : procTok { (fatalApply e s).1 with proc := none, waitOpen := false, linesOpen := false } = 0 := by
              simp [procTok]
            rw [hpt]
            omega
          · intro _
            simp [he]
      · rw [if_neg h2] at h
        exact absurd h (by simp)
  | exitConfirm =>
    simp only [step] at h
    by_cases h1 : s.done = true
    · rw [if_pos h1] at h
      exact absurd h (by simp)
    · rw [if_neg h1] at h
      obtain rfl := Option.some.inj h
      exact ⟨by simp [countProcKills, procTok], fun hse => by simpa using hse⟩
  | deadlineFire =>
    simp only [step] at h
    by_cases h1 : s.done = true
    · rw [if_pos h1] at h
      exact absurd h (by simp)
    · rw [if_neg h1] at h
      split at h
      · exact absurd h (by simp)
      · obtain rfl := Option.some.inj h
        exact ⟨by simp [countProcKills, procTok], fun hse => by simpa using hse⟩


theorem runTrace_spec : ∀ (evs : List Ev) (cfg : LoopCfg) (s : LoopState)
    (so : LoopState × List Obs), runTrace cfg s evs = some so →
    countProcKills so.2 + procTok so.1 ≤ procTok s ∧
    (s.err.isSome = true → so.1.err.isSome = true) := by
  intro evs
  induction evs with
  | nil =>
    intro cfg s so h
    obtain rfl := Option.some.inj h
    exact ⟨by simp [countProcKills], fun hse => hse⟩
  | cons e evs ih =>
    intro cfg s so h
    unfold runTrace at h
    rcases hst : step cfg s e with _ | so1
    · rw [hst] at h
      exact absurd h (by simp)
    · rw [hst, Option.some_bind] at h
      rcases hrt : runTrace cfg so1.1 evs with _ | so2
      · rw [hrt] at h
        exact absurd h (by simp)
      · rw [hrt] at h
        obtain rfl := Option.some.inj (by simpa using h)
        rcases step_spec hst with ⟨hb1, he1⟩
        rcases ih cfg so1.1 so2 hrt with ⟨hb2, he2⟩
        constructor
        · simp only [countProcKills_append]
          omega
        · intro hse
          exact he2 (he1 hse)

/-! ## Claim C1 -/

/-- Claim C1, counterexample: the latched fatal error is not write-once. The
fatal line latches ErrHttpServe("boom"); the subsequent child-wait error
(ctrl.fatal is called again from the waitCh case) replaces it, and the next
Call completes with the second error, not the first. -/
theorem pingo_c1_counterexample :
    (runTrace cfg0 (initState 7) [fatalLineEv]).map (fun r => r.1.err) =
      some (some (GoErr.httpServe "boom".toList)) ∧
    (runTrace cfg0 (initState 7) [fatalLineEv, killedWaitEv, Ev.connReq]).map
      (fun r => r.2) =
      some [Obs.killProc 7, Obs.connErr (GoErr.exitError "signal: killed".toList)] ∧
    GoErr.exitError "signal: killed".toList ≠ GoErr.httpServe "boom".toList :=
  ⟨by decide, by decide, by decide⟩

/-- Claim C1 (amended): ctrl.fatal stores unconditionally, so a later fatal
event may replace the stored error; what does hold is that once an error is
latched some error stays latched for the rest of the run, and every Call or
Objects request serviced while an error is latched completes with exactly
the currently stored error. -/
theorem pingo_c1_amended :
    (∀ (cfg : LoopCfg) (s : LoopState) (evs : List Ev) (so : LoopState × List Obs),
      runTrace cfg s evs = some so → s.err.isSome = true → so.1.err.isSome = true) ∧
    (∀ (cfg : LoopCfg) (s : LoopState) (e : GoErr), s.err = some e →
      s.done = false → s.connOpen = true →
      step cfg s Ev.connReq = some (s, [Obs.connErr e])) ∧
    (∀ (cfg : LoopCfg) (s : LoopState) (e : GoErr), s.err = some e →
      s.done = false → s.objsOpen = true →
      step cfg s Ev.objsReq = some (s, [Obs.objsErr e])) := by
  refine ⟨fun cfg s evs so h hse => (runTrace_spec evs cfg s so h).2 hse,
    fun cfg s e he hd hc => ?_, fun cfg s e he hd ho => ?_⟩
  · simp [step, hd, hc, he]
  · simp [step, hd, ho, he]

/-- Witness for claim C1's amended theorem at a concrete latched state. -/
theorem pingo_c1_amended_w :
    fatalState.err.isSome = true ∧
    step cfg0 fatalState Ev.connReq =
      some (fatalState, [Obs.connErr (GoErr.httpServe "boom".toList)]) ∧
    step cfg0 fatalState Ev.objsReq =
      some (fatalState, [Obs.objsErr (GoErr.httpServe "boom".toList)]) :=
  ⟨pingo_c1_amended.1 cfg0 fatalState [] (fatalState, []) (by decide) (by decide),
   pingo_c1_amended.2.1 cfg0 fatalState _ (by decide) (by decide) (by decide),
   pingo_c1_amended.2.2 cfg0 fatalState _ (by decide) (by decide) (by decide)⟩

/-! ## Claim C2 -/

/-- Claim C2 (confirmed): the stored secret is 64 characters, and the byte
stream is handed to the RPC server (serveConn calls ServeConn) exactly when
the header block parses and its Auth-Token entry is non-empty and equal to
the secret; a connection whose headers omit or mismatch Auth-Token (or whose
header block makes the parser panic) sees no RPC dispatch. -/
theorem pingo_c2_auth_gate : ∀ (r : Nat → Nat) (lines : List Str),
    (rpcServerSecret r).length = 64 ∧
    (serveConnAuth (rpcServerSecret r) lines = some true ↔
      ∃ m, parseHeaderLines lines [] = some m ∧
        hmapGet m authTokenKey ≠ [] ∧ hmapGet m authTokenKey = rpcServerSecret r) := by
  intro r lines
  constructor
  · simp [rpcServerSecret, randstr]
  · unfold serveConnAuth
    rcases hm : parseHeaderLines lines [] with _ | m
    · simp
    · simp only [Option.some.injEq]
      constructor
      · intro hb
        refine ⟨m, rfl, ?_⟩
        unfold authConn at hb
        by_cases hcond : hmapGet m authTokenKey ≠ [] ∧
            hmapGet m authTokenKey = rpcServerSecret r
        · exact hcond
        · rw [if_neg hcond] at hb
          exact absurd hb (by simp)
      · rintro ⟨m', hm', hne, heq⟩
        obtain rfl := hm'
        unfold authConn
        rw [if_pos ⟨hne, heq⟩]

/-! ## Claim C3 -/

/-- Claim C3, counterexample: a ready value with an empty addr= part is
accepted by ctrl.parseReady (it succeeds with an empty address) instead of
producing the invalid-message error the claim requires. -/
theorem pingo_c3_counterexample :
    parseReady "proto=unix addr=".toList ([], []) = (("unix".toList, []), true) := by
  decide

/-- Claim C3 (amended): parseReady succeeds exactly on values of the form
proto=(unix|tcp) addr=<rest> where the address part may be any string,
including the empty one; every structural deviation fails (and is latched as
invalid-message by ctrl.ready). -/
theorem pingo_c3_amended : ∀ (v : Str) (pa : Str × Str),
    (parseReady v pa).2 = true ↔
      ∃ p a, (p = unixS ∨ p = tcpS) ∧ v = protoEqS ++ p ++ spAddrEqS ++ a ∧
        (parseReady v pa).1 = (p, a) := by
  intro v pa
  constructor
  · exact parseReady_inv
  · rintro ⟨p, a, hp, hv, _⟩
    rw [hv, parseReady_build p a pa hp]

/-! ## Claim C4 -/

/-- Claim C4, counterexample: a line that begins with the prefix but is NOT
followed by the two-character separator is still parsed into a non-empty
protocol key, because meta.parse skips the two characters after the prefix
without checking them. -/
theorem pingo_c4_counterexample :
    metaParse "pingoAAAAA".toList "pingoAAAAAXXfatal: boom".toList =
      some ("fatal".toList, "boom".toList) ∧
    strStarts "pingoAAAAAXXfatal: boom".toList "pingoAAAAA: ".toList = false :=
  ⟨by decide, by decide⟩

/-- Claim C4 (amended): meta.parse yields a non-empty key only if the line
begins with the prefix itself (the two following characters are skipped
unchecked), and every line that does not begin with the prefix is returned
as the empty pair, hence forwarded to the log sink. -/
theorem pingo_c4_amended :
    (∀ h line k v : Str, metaParse h line = some (k, v) → k ≠ [] →
      strStarts line h = true) ∧
    (∀ h line : Str, strStarts line h = false → metaParse h line = some ([], [])) :=
  ⟨fun _ _ _ _ hp hk => metaParse_key_ne_nil hp hk,
   fun _ _ hs => metaParse_not_pre hs⟩

/-- Witness for claim C4's amended theorem at concrete lines. -/
theorem pingo_c4_amended_w :
    strStarts "pingoAAAAAXXfatal: boom".toList "pingoAAAAA".toList = true ∧
    metaParse "pingoAAAAA".toList "hello world".toList = some ([], []) :=
  ⟨pingo_c4_amended.1 "pingoAAAAA".toList "pingoAAAAAXXfatal: boom".toList
     "fatal".toList "boom".toList (by decide) (by decide),
   pingo_c4_amended.2 "pingoAAAAA".toList "hello world".toList (by decide)⟩

/-! ## Claim C5 -/

/-- Claim C5, counterexample: with the built-in name stored twice, objects()
returns a list padded with an empty string, which differs from the stored
list with every occurrence of the built-in name removed — and the state is
reachable without a latched fatal: the child emits a duplicated objects line
followed by a valid ready, and the serviced Objects request returns the
padded list. -/
theorem pingo_c5_counterexample :
    objectsFn [internalObject, internalObject] = some [[]] ∧
    removeAll internalObject [internalObject, internalObject] = [] ∧
    ([[]] : List Str) ≠ [] ∧
    (runTrace cfg0 (initState 7) [objectsDupEv, readyLineEv, Ev.objsReq]).map
      (fun r => (r.1.err, r.2)) =
      some (none, [Obs.objsOk [[]]]) :=
  ⟨by decide, by decide, by decide, by decide⟩

/-- Claim C5 (amended): when the stored list contains the built-in control
name exactly once, objects() returns the stored list with that occurrence
removed, and the result never contains the built-in name. -/
theorem pingo_c5_amended : ∀ objs : List Str,
    countOcc internalObject objs = 1 →
    objectsFn objs = some (removeAll internalObject objs) ∧
    internalObject ∉ removeAll internalObject objs :=
  fun objs hc => ⟨objectsFn_count_one hc, not_mem_removeAll _ objs⟩

/-- Witness for claim C5's amended theorem at a concrete object list. -/
theorem pingo_c5_amended_w :
    objectsFn ["Greeter".toList, internalObject] = some ["Greeter".toList] ∧
    internalObject ∉ removeAll internalObject ["Greeter".toList, internalObject] := by
  have h := pingo_c5_amended ["Greeter".toList, internalObject] (by decide)
  refine ⟨?_, h.2⟩
  rw [h.1]
  decide

/-! ## Claim C6 -/

/-- Claim C6, counterexample: the child process receives two Kill calls in
one lifetime. A fatal line after ready kills through the stored pointer;
the later Stop schedules the deadline task (the client is still set), and
the deadline task kills the pid again without consulting the pointer. -/
theorem pingo_c6_counterexample :
    (runTrace cfg0 (initState 7)
        [readyLineEv, fatalLineEv, Ev.killReq, Ev.deadlineFire]).map
      (fun r => r.2) =
      some [Obs.killProc 7, Obs.exitCall, Obs.killPid 7] ∧
    (runTrace cfg0 (initState 7)
        [readyLineEv, fatalLineEv, Ev.killReq, Ev.deadlineFire]).map
      (fun r => countKills r.2) = some 2 ∧
    ¬ (2 ≤ 1) :=
  ⟨by decide, by decide, by decide⟩

/-- Claim C6 (amended): at most one Kill ever goes through the stored
process pointer (ctrl.kill nils the pointer and nothing re-sets it), in any
run of the supervisor loop; the deadline task's pid-based Kill is the one
path not covered by this bound. -/
theorem pingo_c6_amended : ∀ (cfg : LoopCfg) (pid : Nat) (evs : List Ev)
    (so : LoopState × List Obs),
    runTrace cfg (initState pid) evs = some so → countProcKills so.2 ≤ 1 := by
  intro cfg pid evs so h
  have hb := (runTrace_spec evs cfg (initState pid) so h).1
  have hi : procTok (initState pid) = 1 := by simp [initState, procTok]
  omega

/-- Witness for claim C6's amended theorem on a concrete trace in which the
registration timeout fires and kills the child. -/
theorem pingo_c6_amended_w : countProcKills [Obs.killProc 7] ≤ 1 :=
  pingo_c6_amended cfg0 7 [Ev.timeout]
    ({ initState 7 with
       timeoutArmed := false
       err := some GoErr.registrationTimeout
       connOpen := true
       objsOpen := true
       proc := none }, [Obs.killProc 7])
    (by decide)

/-! ## Claim C7 -/

/-- Claim C7: evidence for the code bug. rpcServer.run builds the unix
connection as new(unix) — the empty directory string — so conf.unixdir is
ignored and all four attempted socket names are bare 8-character names with
no directory component; the tcp side behaves as claimed (k-th attempt is
port 1023+k, first successful listen wins), and the fatal value on
exhaustion carries the err-connection-failed code. -/
theorem pingo_c7_unixdir_ignored :
    (newConnFor "unix".toList).2 = ConnKind.unixC [] ∧
    ("/tmp".toList : Str) ≠ [] ∧
    (runBind (SrvConfig.mk "unix".toList "/tmp".toList "pingo".toList)
        (fun _ => false) (fun i j => i * 8 + j)).1.length = 4 ∧
    (∀ a ∈ (runBind (SrvConfig.mk "unix".toList "/tmp".toList "pingo".toList)
        (fun _ => false) (fun i j => i * 8 + j)).1,
      a.length = 8 ∧ '/' ∉ a) ∧
    (runBind (SrvConfig.mk "unix".toList "/tmp".toList "pingo".toList)
        (fun _ => false) (fun i j => i * 8 + j)).2 = none ∧
    (bindLoop (fun a => a = "127.0.0.1:1026".toList) (fun _ _ => 0)
        (ConnKind.tcpC 0) 0 500).1 =
      ["127.0.0.1:1024".toList, "127.0.0.1:1025".toList, "127.0.0.1:1026".toList] ∧
    (bindLoop (fun a => a = "127.0.0.1:1026".toList) (fun _ _ => 0)
        (ConnKind.tcpC 0) 0 500).2 = some ("127.0.0.1:1026".toList) ∧
    bindFatalValue (ConnKind.unixC []) unixS =
      "err-connection-failed: Could not connect in 4 attemps, using unix protocol".toList :=
  ⟨by decide, by decide, by decide, by decide, by decide, by decide, by decide,
   by decide⟩

/-! ## Claim C8 -/

/-- Claim C8: evidence for the code bug. parseError is not total: on a
non-empty input with no ": " separator it indexes parts[1] out of range
(modelled as none); structured inputs and the empty input behave as
documented. -/
theorem pingo_c8_parseError_panic :
    parseError "somefreeformtext".toList = none ∧
    parseError "err-connection-failed: dial failed".toList =
      some (some (GoErr.connFailed "dial failed".toList)) ∧
    parseError [] = some none :=
  ⟨by decide, by decide, by decide⟩

/-! ## Claim C9 -/

/-- Claim C9: evidence for the code bug. meta.parse is not total: a line
equal to the prefix (shorter than prefix length plus two) panics on the
slice line[len(h)+2:], and a line whose first colon after the prefix is the
final character panics on line[end+2:]; a well-formed line parses fine. -/
theorem pingo_c9_metaParse_panic :
    metaParse "pingoAAAAA".toList "pingoAAAAA".toList = none ∧
    metaParse "pingoAAAAA".toList "pingoAAAAA: fatal:".toList = none ∧
    metaParse "pingoAAAAA".toList "pingoAAAAA: ready: x".toList =
      some ("ready".toList, "x".toList) :=
  ⟨by decide, by decide, by decide⟩

/-! ## Claim C10 -/

/-- Claim C10 (confirmed): objects() is total under the unstated
precondition that the stored list contains the built-in name (here: exactly
once, as the child runtime emits it), and the precondition is necessary: on
a list without the built-in name — in particular the nil list left when
ready arrives before any objects line — the copy loop fails. -/
theorem pingo_c10_objects_precondition :
    (∀ objs : List Str, countOcc internalObject objs = 1 →
      (objectsFn objs).isSome = true) ∧
    (∀ objs : List Str, countOcc internalObject objs = 0 →
      objectsFn objs = none) := by
  constructor
  · intro objs hc
    rw [objectsFn_count_one hc]
    rfl
  · intro objs hc
    exact objectsFn_count_zero hc

/-- Witness for claim C10's theorem at concrete object lists. -/
theorem pingo_c10_objects_precondition_w :
    (objectsFn [internalObject, "Greeter".toList]).isSome = true ∧
    objectsFn [] = none :=
  ⟨pingo_c10_objects_precondition.1 [internalObject, "Greeter".toList] (by decide),
   pingo_c10_objects_precondition.2 [] (by decide)⟩

end Pingo
